import Mathlib

/-!
# Verification of the `py_win_unc` parsing core

A shallow embedding, in Lean 4, of the parsing core of the `py_win_unc`
repository: the `net use` table parser (`win_unc/internal/net_use_table.py`)
and the UNC address parser (`win_unc/unc_directory.py`, whose behaviour is
modelled from the specification and the repository's own tests, since the
module itself is not part of the provided sources).

Python strings are embedded as `List Char` (`PyStr`), with explicit
counterparts of the Python primitives the code uses (`str.strip`,
`str.rstrip`, `str.split`, `str.index`, slicing, substring containment).
Python exceptions are embedded as an explicit error type threaded through
`Except`.
-/

set_option linter.unusedVariables false

namespace WinUnc

/-- Embedding of a Python string: a list of characters. -/
abbrev PyStr := List Char

/-- The ASCII whitespace characters recognised by Python's `str.strip`,
`str.rstrip` and `str.split` (the sources only ever meet ASCII text). -/
def pyIsSpace (c : Char) : Bool :=
  c = ' ' || c = '\t' || c = '\n' || c = '\x0d' || c = '\x0b' || c = '\x0c'

/-- Python `str.lstrip()` (no argument): drop leading whitespace. -/
def pylstrip (s : PyStr) : PyStr := s.dropWhile pyIsSpace

/-- Python `str.rstrip()` (no argument): drop trailing whitespace. -/
def pyrstrip (s : PyStr) : PyStr := (s.reverse.dropWhile pyIsSpace).reverse

/-- Python `str.strip()` (no argument): drop whitespace at both ends. -/
def pystrip (s : PyStr) : PyStr := pylstrip (pyrstrip s)

/-- ASCII lower-casing of one character, as Python's `str.lower` acts on
the ASCII text these sources meet. -/
def pyToLower (c : Char) : Char :=
  if 65 ≤ c.toNat ∧ c.toNat ≤ 90 then Char.ofNat (c.toNat + 32) else c

/-- Python `str.lower()`. -/
def pyLower (s : PyStr) : PyStr := s.map pyToLower

/-- Accumulator-based splitter behind `pySplitWs`: `acc` holds the current
word's characters in reverse. -/
def pySplitWsAux : PyStr → PyStr → List PyStr
  | acc, [] => if acc = [] then [] else [acc.reverse]
  | acc, c :: t =>
    if pyIsSpace c then
      if acc = [] then pySplitWsAux [] t else acc.reverse :: pySplitWsAux [] t
    else pySplitWsAux (c :: acc) t

/-- Python `str.split()` with no argument: split on runs of whitespace,
discarding empty pieces. -/
def pySplitWs (s : PyStr) : List PyStr := pySplitWsAux [] s

/-- Python `str.split('\n')`: split on every newline, keeping empty pieces
(so the empty string yields `[[]]`, matching `''.split('\n') == ['']`). -/
def splitOnNl : PyStr → List PyStr
  | [] => [[]]
  | c :: t =>
    if c = '\n' then [] :: splitOnNl t
    else
      match splitOnNl t with
      | [] => [[c]]
      | h :: r => (c :: h) :: r

/-- Python substring containment `sub in hay`. -/
def pyIn (sub : PyStr) : PyStr → Bool
  | [] => sub.isEmpty
  | c :: t => sub.isPrefixOf (c :: t) || pyIn sub t

/-- Helper for Python `hay.index(sub)`: the first position of `sub` in the
scanned remainder, `none` when `sub` does not occur (Python raises
`ValueError` there). -/
def pyIndexAux (sub : PyStr) : PyStr → Option Nat
  | [] => if sub.isEmpty then some 0 else none
  | c :: t =>
    if sub.isPrefixOf (c :: t) then some 0
    else (pyIndexAux sub t).map (· + 1)

/-- Python `hay.index(sub)`, fallible: the index of the first occurrence of
`sub` in `hay`. -/
def pyIndex (hay sub : PyStr) : Option Nat := pyIndexAux sub hay

/-- Python slicing `s[start:stop]` with a non-negative `start` and an
optional, possibly negative, `stop` (the only shapes the sources use).
A negative `stop` counts from the end; out-of-range bounds clamp. -/
def pySlice (s : PyStr) (start : Nat) (stop : Option Int) : PyStr :=
  match stop with
  | none => s.drop start
  | some e =>
    let stopIdx : Nat := if e < 0 then s.length - (-e).toNat else e.toNat
    (s.take stopIdx).drop start

/-- Python `s[-n:]`: the last `n` characters (the whole string when
`s` is shorter than `n`). -/
def pyTakeRight (s : PyStr) (n : Nat) : PyStr := s.drop (s.length - n)

/-- Python `s.split(c, 1)` restricted to a one-character separator, as an
option: `some (before, after)` splits at the first occurrence of `c`,
`none` means `c` does not occur. -/
def splitFirst (c : Char) : PyStr → Option (PyStr × PyStr)
  | [] => none
  | d :: t =>
    if d = c then some ([], t)
    else (splitFirst c t).map (fun p => (d :: p.1, p.2))

/-- Python `line.startswith(' ')` (one literal space character). -/
def startsWithSpace : PyStr → Bool
  | [] => false
  | c :: _ => c = ' '

/-- Python `s.rstrip(':')`: drop trailing colon characters. -/
def pyRstripColon (s : PyStr) : PyStr :=
  (s.reverse.dropWhile (fun c => c = ':')).reverse

/-! ## Embedding of `win_unc/internal/net_use_table.py` -/

/-- The Python exceptions the table parser can raise: `FormatError` (raised
by `rfirst` when no header line qualifies), `KeyError` (raised by
`rekey_dict` on a missing key), `IndexError` (raised by
`parse_multiline_row` when fewer than two columns exist) and `ValueError`
(raised by `str.index` when the substring is absent). -/
inductive PyError where
  | formatError
  | keyError
  | indexError
  | valueError
deriving DecidableEq, Repr

instance {ε α : Type} [DecidableEq ε] [DecidableEq α] : DecidableEq (Except ε α) :=
  fun x y =>
    match x, y with
    | .ok a, .ok b =>
      if h : a = b then isTrue (by rw [h]) else isFalse (by simp [h])
    | .error a, .error b =>
      if h : a = b then isTrue (by rw [h]) else isFalse (by simp [h])
    | .ok _, .error _ => isFalse (by simp)
    | .error _, .ok _ => isFalse (by simp)

/-- `take_while` from `win_unc/internal/parsing.py`. Modelled from the spec:
`parsing.py` is not among the provided sources; the spec describes the
column detector as working on "the full list of text lines preceding the
first separator line", the standard take-while. -/
def take_while (p : α → Bool) (l : List α) : List α := l.takeWhile p

/-- `drop_while` from `win_unc/internal/parsing.py`. Modelled from the spec:
`parsing.py` is not among the provided sources; the spec describes the body
as "lines following the separator", the standard drop-while. -/
def drop_while (p : α → Bool) (l : List α) : List α := l.dropWhile p

/-- `rfirst` from `win_unc/internal/parsing.py`. Modelled from the spec:
`parsing.py` is not among the provided sources; the spec says to "select
the last line" satisfying the predicate, failing (with a `FormatError`,
per spec section 4.1) when none does — so here the last satisfying element
as an option. -/
def rfirst (p : α → Bool) (l : List α) : Option α := (l.filter p).getLast?

/-- `NetUseColumn` from `net_use_table.py`: a column name with its start
offset and optional end offset (`none` meaning "to the end of the line").
The end offset is an `Int` because `get_columns` computes it as
`start - 1` of the following column, which Python lets be `-1`. -/
structure NetUseColumn where
  name : PyStr
  start : Nat
  «end» : Option Int
deriving DecidableEq, Repr

/-- `NetUseColumn.extract`: `string[self.start:self.end].strip()`. -/
def NetUseColumn.extract (c : NetUseColumn) (s : PyStr) : PyStr :=
  pystrip (pySlice s c.start c.«end»)

/-- A parsed row: the Python dictionary embedded as an association list
(later bindings override earlier ones on lookup). -/
abbrev Row := List (PyStr × PyStr)

/-- Python dictionary lookup `d[k]` on the association-list embedding:
the last binding for `k`, as an option. -/
def pyDictGet (d : Row) (k : PyStr) : Option PyStr :=
  ((d.filter (fun p => decide (p.1 = k))).getLast?).map Prod.snd

/-- Python dictionary lookup `d[k]` raising `KeyError` when absent. -/
def pyDictGetE (d : Row) (k : PyStr) : Except PyError PyStr :=
  match pyDictGet d k with
  | some v => .ok v
  | none => .error .keyError

/-- `NetUseTable` from `net_use_table.py`: an ordered list of rows. -/
structure NetUseTable where
  rows : List Row
deriving DecidableEq, Repr

/-- `EMPTY_TABLE_INDICATOR` from `net_use_table.py`. -/
def EMPTY_TABLE_INDICATOR : PyStr := "There are no entries in the list.".data

/-- `LAST_TABLE_LINE` from `net_use_table.py`. -/
def LAST_TABLE_LINE : PyStr := "The command completed successfully.".data

/-- The standard key `'local'`. -/
def localKey : PyStr := "local".data

/-- The standard key `'remote'`. -/
def remoteKey : PyStr := "remote".data

/-- The standard key `'status'`. -/
def statusKey : PyStr := "status".data

/-- `MAP_RAW_COLUMNS_TO_STANDARD_COLUMNS` from `net_use_table.py`, as an
association list of its items (`'Local' -> 'local'`, `'Remote' -> 'remote'`,
`'Status' -> 'status'`). -/
def MAP_RAW_COLUMNS_TO_STANDARD_COLUMNS : List (PyStr × PyStr) :=
  [("Local".data, localKey), ("Remote".data, remoteKey), ("Status".data, statusKey)]

/-- `drive_letters_equal` from `net_use_table.py`:
`left.rstrip(':').lower() == right.rstrip(':').lower()`. -/
def drive_letters_equal (left right : PyStr) : Bool :=
  decide (pyLower (pyRstripColon left) = pyLower (pyRstripColon right))

/-- `normalize_remote_path` from `net_use_table.py`:
`path = path.lower(); return path[-5:] if path.endswith(r'\ipc$') else path`.
Note the source keeps the last five characters (`path[-5:]`). -/
def normalize_remote_path (path : PyStr) : PyStr :=
  let path := pyLower path
  if "\\ipc$".data.isSuffixOf path then pyTakeRight path 5 else path

/-- `remote_paths_equal` from `net_use_table.py`. -/
def remote_paths_equal (left right : PyStr) : Bool :=
  decide (normalize_remote_path left = normalize_remote_path right)

/-- `rekey_dict` from `net_use_table.py`:
`{new_key: d[old_key] for old_key, new_key in key_map.iteritems()}`,
raising `KeyError` when `d` lacks one of `key_map`'s keys. -/
def rekey_dict (d : Row) (key_map : List (PyStr × PyStr)) : Except PyError Row :=
  key_map.mapM (fun p => (pyDictGetE d p.1).map (fun v => (p.2, v)))

/-- `is_line_separator` from `net_use_table.py`:
`line and all(char == '-' for char in line)`. -/
def is_line_separator (line : PyStr) : Bool :=
  !line.isEmpty && line.all (fun c => c = '-')

/-- The predicate `lambda x: x and x[0].isalpha()` used by `get_columns`
to pick the header line: the line is non-empty and its first character is
alphabetic. -/
def isHeaderLine (x : PyStr) : Bool :=
  !x.isEmpty && (x.headD ' ').isAlpha

/-- `get_columns` from `net_use_table.py`: pick the last header-like line
before the first separator, split it into names, locate each name's first
occurrence, and pair the offsets into `NetUseColumn`s. -/
def get_columns (lines : List PyStr) : Except PyError (List NetUseColumn) :=
  let header_iter := take_while (fun x => !is_line_separator x) lines
  match rfirst isHeaderLine header_iter with
  | none => .error .formatError
  | some headings => do
    let names := pySplitWs headings
    let starts ← names.mapM (fun n =>
      match pyIndex headings n with
      | some i => Except.ok i
      | none => Except.error PyError.valueError)
    let ends : List (Option Int) :=
      (starts.drop 1).map (fun (r : Nat) => some ((r : Int) - 1)) ++ [none]
    return (names.zip (starts.zip ends)).map (fun x => ⟨x.1, x.2.1, x.2.2⟩)

/-- The predicate `lambda x: x and x != LAST_TABLE_LINE` used by `get_body`:
keep lines that are non-empty and differ from the completion sentinel. -/
def isBodyLine (x : PyStr) : Bool :=
  !x.isEmpty && !(decide (x = LAST_TABLE_LINE))

/-- `get_body` from `net_use_table.py`: everything after the first
separator, cut at the first empty line or completion sentinel. -/
def get_body (lines : List PyStr) : List PyStr :=
  let bottom := drop_while (fun x => !is_line_separator x) lines
  if bottom.length > 1 then take_while isBodyLine (bottom.drop 1) else []

/-- `parse_singleline_row` from `net_use_table.py`: extract every column
from the line, then rekey through the standard-column map. -/
def parse_singleline_row (line : PyStr) (columns : List NetUseColumn) :
    Except PyError Row :=
  rekey_dict (columns.map (fun c => (c.name, c.extract line)))
    MAP_RAW_COLUMNS_TO_STANDARD_COLUMNS

/-- The column adjustment performed by `parse_multiline_row` on its deep
copy of the column list: the second-to-last column's end becomes `n1`
(the first line's length) and the last column's start becomes `n1 + 1`. -/
def adjust_columns (columns : List NetUseColumn) (n1 : Nat) : List NetUseColumn :=
  let a := columns.modify (fun c => { c with «end» := some (n1 : Int) })
    (columns.length - 2)
  a.modify (fun c => { c with start := n1 + 1 }) (columns.length - 1)

/-- `parse_multiline_row` from `net_use_table.py`: join the two physical
lines as `line1 + ' ' + line2.strip()`, adjust a copy of the columns, and
parse the synthetic line. Indexing `custom_columns[-2]` raises
`IndexError` when fewer than two columns exist. -/
def parse_multiline_row (line1 line2 : PyStr) (columns : List NetUseColumn) :
    Except PyError Row :=
  if columns.length < 2 then .error .indexError
  else
    parse_singleline_row (line1 ++ ' ' :: pystrip line2)
      (adjust_columns columns line1.length)

/-- One iteration of `build_net_use_table_from_parts`'s loop over the pair
`pr = (this_row, next_row)`: a line starting with a space starts no row;
otherwise a two-line row is parsed when the next line starts with a space
and a single-line row otherwise, and the parsed row is appended. -/
def buildStep (columns : List NetUseColumn) (acc : List Row) (pr : PyStr × PyStr) :
    Except PyError (List Row) :=
  if startsWithSpace pr.1 then pure acc
  else do
    let row ← if startsWithSpace pr.2 then parse_multiline_row pr.1 pr.2 columns
      else parse_singleline_row pr.1 columns
    pure (acc ++ [row])

/-- `build_net_use_table_from_parts` from `net_use_table.py`: walk the
pairs `zip(body_lines, body_lines[1:] + [''])` accumulating rows. -/
def build_net_use_table_from_parts (columns : List NetUseColumn)
    (body_lines : List PyStr) : Except PyError NetUseTable := do
  let rows ← (body_lines.zip (body_lines.drop 1 ++ [[]])).foldlM
    (buildStep columns) ([] : List Row)
  return ⟨rows⟩

/-- State-passing form of `parse_multiline_row`, making the treatment of
the caller's column list explicit: the source deep-copies `columns`
(`custom_columns = deepcopy(columns)`), applies the offset mutations to
the fresh copy only, and never touches the caller's objects — so the
call returns the parsed row together with the caller's list afterwards,
which is `columns` unchanged. -/
def parse_multiline_rowS (columns : List NetUseColumn) (line1 line2 : PyStr) :
    Except PyError Row × List NetUseColumn :=
  (parse_multiline_row line1 line2 columns, columns)

/-- One iteration of the state-passing build loop: the state is the rows
accumulated so far together with the caller's column list as left behind
by the preceding calls. -/
def buildStepS (st : List Row × List NetUseColumn) (pr : PyStr × PyStr) :
    Except PyError (List Row × List NetUseColumn) :=
  if startsWithSpace pr.1 then pure st
  else
    let r := if startsWithSpace pr.2 then parse_multiline_rowS st.2 pr.1 pr.2
      else (parse_singleline_row pr.1 st.2, st.2)
    match r.1 with
    | .ok row => .ok (st.1 ++ [row], r.2)
    | .error e => .error e

/-- State-passing form of `build_net_use_table_from_parts`: the column
list is threaded through every row parse (two-line rows via
`parse_multiline_rowS`), so that the layout used for each subsequent row
is the state left behind by the preceding calls. -/
def build_net_use_table_from_partsS (columns : List NetUseColumn)
    (body_lines : List PyStr) : Except PyError NetUseTable × List NetUseColumn :=
  match (body_lines.zip (body_lines.drop 1 ++ [[]])).foldlM buildStepS ([], columns) with
  | .ok st => (.ok ⟨st.1⟩, st.2)
  | .error e => (.error e, columns)

/-- `parse_populated_net_use_table` from `net_use_table.py`: split into
lines, right-strip each, then combine `get_columns` and `get_body`. -/
def parse_populated_net_use_table (s : PyStr) : Except PyError NetUseTable := do
  let lines := (splitOnNl s).map pyrstrip
  let cols ← get_columns lines
  build_net_use_table_from_parts cols (get_body lines)

/-- `parse_net_use_table` from `net_use_table.py`: the empty-table sentinel
short-circuits to an empty table. -/
def parse_net_use_table (s : PyStr) : Except PyError NetUseTable :=
  if pyIn EMPTY_TABLE_INDICATOR s then .ok ⟨[]⟩
  else parse_populated_net_use_table s

/-- `NetUseTable.get_matching_rows` from `net_use_table.py`. A criterion is
an optional string; a falsy criterion (`None` or the empty string) is
skipped. For a truthy criterion the corresponding row key is read (a
missing key raises `KeyError`), exactly as the Python conditional
expressions evaluate. -/
def get_matching_rows (t : NetUseTable)
    (localC remoteC statusC : Option PyStr) : Except PyError (List Row) :=
  t.rows.foldlM (fun result row => do
    let m1 ← match localC with
      | some l =>
        if l = [] then pure true
        else (pyDictGetE row localKey).map (fun v => drive_letters_equal l v)
      | none => pure true
    let m2 ← match remoteC with
      | some r =>
        if r = [] then pure true
        else (pyDictGetE row remoteKey).map (fun v => remote_paths_equal r v)
      | none => pure true
    let m3 ← match statusC with
      | some st =>
        if st = [] then pure true
        else (pyDictGetE row statusKey).map (fun v => decide (pyLower st = pyLower v))
      | none => pure true
    pure (if m1 && m2 && m3 then result ++ [row] else result)) ([] : List Row)

/-! ## Embedding of `win_unc/unc_directory.py` (modelled)

The module `win_unc/unc_directory.py` is not among the provided sources;
only its tests (`src/test/test_unc_directory.py`) are.  The definitions
below are therefore modelled from the spec (sections 3, 4.5) and checked
against those tests.  Usernames and passwords are tri-state: `none` is
"absent", `some []` is an explicit empty string, and the two are distinct
(spec sections 3 and 4.6). -/

/-- `UncCredentials`, modelled from the spec: a pair of an optional
username and an optional password, each either absent or a string. -/
structure UncCredentials where
  username : Option PyStr
  password : Option PyStr
deriving DecidableEq, Repr

/-- `get_creds_from_string`.  Modelled from the spec: the function itself
lives in `win_unc/unc_directory.py`, missing from the sources.  An empty
input gives no credentials; otherwise the input is split on the first
colon, the text before it becoming the username and the text after it the
password.  Where the spec's prose ("an empty string before a colon is an
explicit empty username") contradicts the repository's own test
(`test_unc_directory.py` line 68 demands
`get_creds_from_string(':pass') == UncCredentials(None, 'pass')` while
spec section 4.6 makes absent and empty unequal), the test is followed: an
empty text before the colon yields an absent username. -/
def get_creds_from_string (s : PyStr) : UncCredentials :=
  match splitFirst ':' s with
  | some (before, after) =>
    ⟨if before = [] then none else some before, some after⟩
  | none => ⟨if s = [] then none else some s, none⟩

/-- The result of parsing a full UNC address: the path together with the
credential fields. -/
structure UncDirectory where
  path : PyStr
  username : Option PyStr
  password : Option PyStr
deriving DecidableEq, Repr

/-- Position `i` of `s` is a credential/path split point: it holds an `'@'`
immediately followed by the two-character UNC prefix `'\\'`. Out-of-range
positions are never split points. -/
def isSplitPoint (s : PyStr) (i : Nat) : Bool :=
  s.getD i ' ' = '@' && s.getD (i + 1) ' ' = '\\' && s.getD (i + 2) ' ' = '\\'

/-- The rightmost split point of an address string, if any. -/
def lastSplitPoint (s : PyStr) : Option Nat :=
  let k := Nat.findGreatest (fun i => isSplitPoint s i) s.length
  if isSplitPoint s k then some k else none

/-- `get_unc_directory_from_string`.  Modelled from the spec: the function
itself lives in `win_unc/unc_directory.py`, missing from the sources.  The
spec (section 4.5) splits at the rightmost `'@'` immediately preceding the
UNC prefix `'\\'` — the text before it is the credential portion and the
text after it the path — and, when no such point exists, takes the whole
string as the path with no credentials. -/
def get_unc_directory_from_string (s : PyStr) : UncDirectory :=
  match lastSplitPoint s with
  | some i =>
    let creds := get_creds_from_string (s.take i)
    ⟨s.drop (i + 1), creds.username, creds.password⟩
  | none => ⟨s, none, none⟩

/-! ## Claim-side definitions

Definitions following the wording of individual spec claims, for
comparison against the source-derived definitions above. -/

/-- Claim C6's header-line selector condition, as the claim words it: the
first *non-space* character of the line is alphabetic (the source instead
tests the line's very first character). -/
def claimHeaderCond (x : PyStr) : Bool :=
  match x.dropWhile pyIsSpace with
  | [] => false
  | c :: _ => c.isAlpha

/-- Claim C5's description of the body: the lines after the first
separator up to, but excluding, the first line equal to the completion
sentinel, or to the end of input when no such line occurs. -/
def claimBody (lines : List PyStr) : List PyStr :=
  ((lines.dropWhile (fun x => !is_line_separator x)).drop 1).takeWhile
    (fun x => !(decide (x = LAST_TABLE_LINE)))

/-- Claim C3's walk over the body, following the claim's wording: a line
beginning with a space starts no row; a line not beginning with a space
starts exactly one row, a two-line row when the following line begins with
a space (the final line is followed by the empty sentinel `''`). -/
def claimRowResults (columns : List NetUseColumn) :
    List PyStr → List (Except PyError Row)
  | [] => []
  | [l] => if startsWithSpace l then [] else [parse_singleline_row l columns]
  | l1 :: l2 :: rest =>
    if startsWithSpace l1 then claimRowResults columns (l2 :: rest)
    else
      (if startsWithSpace l2 then parse_multiline_row l1 l2 columns
        else parse_singleline_row l1 columns) :: claimRowResults columns (l2 :: rest)

/-! ## General lemmas -/

theorem length_dropWhile_le (p : α → Bool) (l : List α) :
    (l.dropWhile p).length ≤ l.length := by
  induction l with
  | nil => simp
  | cons c t ih =>
    by_cases h : p c
    · simpa [List.dropWhile, h] using Nat.le_succ_of_le ih
    · simp [List.dropWhile, h]

theorem head_false_of_dropWhile_eq_self {p : α → Bool} {c : α} {t : List α}
    (h : (c :: t).dropWhile p = c :: t) : p c = false := by
  by_contra hc
  have hc' : p c = true := by
    cases hpc : p c
    · exact absurd hpc hc
    · rfl
  have h1 : (c :: t).dropWhile p = t.dropWhile p := by
    simp [List.dropWhile, hc']
  have h2 := length_dropWhile_le p t
  rw [h1] at h
  have := congrArg List.length h
  simp at this
  omega

theorem dropWhile_idem (p : α → Bool) (l : List α) :
    (l.dropWhile p).dropWhile p = l.dropWhile p := by
  induction l with
  | nil => simp
  | cons c t ih =>
    by_cases h : p c
    · simpa [List.dropWhile, h] using ih
    · simp [List.dropWhile, h]

theorem pylstrip_idem (s : PyStr) : pylstrip (pylstrip s) = pylstrip s :=
  dropWhile_idem pyIsSpace s

theorem pyrstrip_pylstrip_pyrstrip (s : PyStr) :
    pyrstrip (pylstrip (pyrstrip s)) = pylstrip (pyrstrip s) := by
  set u := pyrstrip s with hu
  have hidem : u.reverse.dropWhile pyIsSpace = u.reverse := by
    rw [hu]
    simp only [pyrstrip, List.reverse_reverse]
    exact dropWhile_idem pyIsSpace s.reverse
  set w := pylstrip u with hw
  obtain ⟨t, ht⟩ : ∃ t, t ++ w = u := List.dropWhile_suffix pyIsSpace
  cases hwr : w.reverse with
  | nil =>
    have : w = [] := by simpa using congrArg List.reverse hwr
    simp [pyrstrip, this]
  | cons b rest =>
    have hur : u.reverse = b :: (rest ++ t.reverse) := by
      rw [← ht]
      simp [hwr]
    have hb : pyIsSpace b = false := by
      apply head_false_of_dropWhile_eq_self (t := rest ++ t.reverse)
      rw [← hur]
      exact hidem
    have hdw : (b :: rest).dropWhile pyIsSpace = b :: rest := by
      simp [List.dropWhile_cons, hb]
    calc pyrstrip w = ((b :: rest).dropWhile pyIsSpace).reverse := by
          rw [pyrstrip, hwr]
      _ = (b :: rest).reverse := by rw [hdw]
      _ = w := by rw [← hwr, List.reverse_reverse]

theorem pystrip_idem (s : PyStr) : pystrip (pystrip s) = pystrip s := by
  simp only [pystrip]
  rw [pyrstrip_pylstrip_pyrstrip, pylstrip_idem]

theorem pystrip_extract (c : NetUseColumn) (s : PyStr) :
    pystrip (c.extract s) = c.extract s :=
  pystrip_idem _

theorem rfirst_eq_none_iff {p : α → Bool} {l : List α} :
    rfirst p l = none ↔ ∀ x ∈ l, p x = false := by
  simp only [rfirst, List.getLast?_eq_none_iff, List.filter_eq_nil_iff]
  constructor
  · intro h x hx
    have := h x hx
    simpa using this
  · intro h x hx
    simp [h x hx]

theorem rfirst_eq_some {p : α → Bool} : ∀ {l : List α} {x : α},
    rfirst p l = some x →
    ∃ a b, l = a ++ x :: b ∧ p x = true ∧ ∀ y ∈ b, p y = false := by
  intro l
  induction l with
  | nil => intro x h; simp [rfirst] at h
  | cons c t ih =>
    intro x h
    cases hrt : rfirst p t with
    | some y =>
      obtain ⟨a, b, hab, hpy, hb⟩ := ih hrt
      have hxy : x = y := by
        rw [rfirst] at h hrt
        by_cases hc : p c
        · rw [List.filter_cons_of_pos hc, List.getLast?_cons, hrt] at h
          simpa using h.symm
        · rw [List.filter_cons_of_neg (by simp [hc]), hrt] at h
          simpa using h.symm
      subst hxy
      exact ⟨c :: a, b, by rw [hab, List.cons_append], hpy, hb⟩
    | none =>
      have ht : ∀ y ∈ t, p y = false := rfirst_eq_none_iff.mp hrt
      have htf : t.filter p = [] := by
        rw [List.filter_eq_nil_iff]
        intro y hy
        simp [ht y hy]
      rw [rfirst] at h
      by_cases hc : p c
      · rw [List.filter_cons_of_pos hc, htf] at h
        have hxc : x = c := by simpa using h.symm
        subst hxc
        exact ⟨[], t, rfl, hc, ht⟩
      · rw [List.filter_cons_of_neg (by simp [hc]), htf] at h
        simp at h

theorem mapM_ok_forall₂ {ε α β : Type} {f : α → Except ε β} : ∀ {l : List α} {r : List β},
    l.mapM f = .ok r ↔ List.Forall₂ (fun a b => f a = .ok b) l r := by
  intro l
  induction l with
  | nil =>
    intro r
    constructor
    · intro h
      simp only [List.mapM_nil] at h
      cases h
      exact List.Forall₂.nil
    · intro h
      cases h
      rfl
  | cons a t ih =>
    intro r
    constructor
    · intro h
      rw [List.mapM_cons] at h
      cases hfa : f a with
      | error e => rw [hfa] at h; simp [Bind.bind, Except.bind] at h
      | ok b =>
        rw [hfa] at h
        cases hmt : t.mapM f with
        | error e =>
          rw [hmt] at h
          simp [Bind.bind, Except.bind, Pure.pure, Except.pure] at h
        | ok rt =>
          rw [hmt] at h
          simp only [Bind.bind, Except.bind, Pure.pure, Except.pure, Except.ok.injEq] at h
          cases h
          exact List.Forall₂.cons hfa (ih.mp hmt)
    · intro h
      cases h with
      | cons hab ht =>
        rw [List.mapM_cons, hab, ih.mpr ht]
        rfl

theorem foldlM_ne_error {ε α β : Type} (f : β → α → Except ε β) (e0 : ε)
    (hf : ∀ acc x, f acc x ≠ .error e0) :
    ∀ (l : List α) (acc : β), l.foldlM f acc ≠ .error e0 := by
  intro l
  induction l with
  | nil => intro acc h; simp [List.foldlM_nil] at h; cases h
  | cons x t ih =>
    intro acc h
    rw [List.foldlM_cons] at h
    cases hfx : f acc x with
    | error e =>
      rw [hfx] at h
      simp [Bind.bind, Except.bind] at h
      cases h
      exact hf acc x hfx
    | ok b =>
      rw [hfx] at h
      simp only [Bind.bind, Except.bind] at h
      exact ih b h

theorem mapM_ne_error {ε α β : Type} {f : α → Except ε β} {e0 : ε}
    (hf : ∀ x, f x ≠ .error e0) :
    ∀ (l : List α), l.mapM f ≠ .error e0 := by
  intro l
  induction l with
  | nil => intro h; simp [List.mapM_nil] at h; cases h
  | cons x t ih =>
    intro h
    rw [List.mapM_cons] at h
    cases hfx : f x with
    | error e =>
      rw [hfx] at h
      simp [Bind.bind, Except.bind] at h
      cases h
      exact hf x hfx
    | ok b =>
      rw [hfx] at h
      cases hmt : t.mapM f with
      | error e =>
        rw [hmt] at h
        simp [Bind.bind, Except.bind] at h
        cases h
        exact ih hmt
      | ok rt =>
        rw [hmt] at h
        simp [Bind.bind, Except.bind, Pure.pure, Except.pure] at h

theorem foldlM_shift {ε α β : Type} {f : List β → α → Except ε (List β)}
    (hf : ∀ acc x, f acc x = (f [] x).map (fun r => acc ++ r)) :
    ∀ (l : List α) (acc : List β),
      l.foldlM f acc = (l.foldlM f []).map (fun r => acc ++ r) := by
  intro l
  induction l with
  | nil => intro acc; simp [List.foldlM_nil, Except.map, Pure.pure, Except.pure]
  | cons x t ih =>
    intro acc
    rw [List.foldlM_cons, List.foldlM_cons, hf acc x]
    cases hfx : f [] x with
    | error e => simp [Except.map, Bind.bind, Except.bind]
    | ok r =>
      simp only [Except.map, Bind.bind, Except.bind]
      rw [ih (acc ++ r), ih r]
      cases t.foldlM f [] with
      | error e => simp [Except.map]
      | ok rr => simp [Except.map]

theorem isSplitPoint_false_of_le {s : PyStr} {i : Nat} (h : s.length ≤ i) :
    isSplitPoint s i = false := by
  have h2 : s[i]? = none := List.getElem?_eq_none h
  simp [isSplitPoint, List.getD_eq_getElem?_getD, h2]

theorem lt_length_of_isSplitPoint {s : PyStr} {i : Nat}
    (h : isSplitPoint s i = true) : i < s.length := by
  by_contra hlt
  rw [isSplitPoint_false_of_le (by omega)] at h
  cases h

theorem lastSplitPoint_eq_none {s : PyStr} (h : lastSplitPoint s = none) :
    ∀ i, isSplitPoint s i = false := by
  intro i
  by_contra hP
  have hPi : isSplitPoint s i = true := by
    cases hx : isSplitPoint s i
    · exact absurd hx hP
    · rfl
  have hle : i ≤ s.length := Nat.le_of_lt (lt_length_of_isSplitPoint hPi)
  have hPk : isSplitPoint s
      (Nat.findGreatest (fun j => isSplitPoint s j = true) s.length) = true :=
    Nat.findGreatest_spec (P := fun j => isSplitPoint s j = true) hle hPi
  simp only [lastSplitPoint] at h
  rw [if_pos (by simpa using hPk)] at h
  cases h

theorem lastSplitPoint_eq_some {s : PyStr} {i : Nat} (h : lastSplitPoint s = some i) :
    isSplitPoint s i = true ∧ ∀ j, isSplitPoint s j = true → j ≤ i := by
  simp only [lastSplitPoint] at h
  by_cases hk : isSplitPoint s
      (Nat.findGreatest (fun j => isSplitPoint s j = true) s.length) = true
  · rw [if_pos (by simpa using hk)] at h
    have hki : Nat.findGreatest (fun j => isSplitPoint s j = true) s.length = i := by
      simpa using h
    constructor
    · rw [← hki]; exact hk
    · intro j hj
      rw [← hki]
      exact Nat.le_findGreatest (P := fun j => isSplitPoint s j = true)
        (Nat.le_of_lt (lt_length_of_isSplitPoint hj)) hj
  · rw [if_neg (by simpa using hk)] at h
    cases h

theorem splitFirst_of_not_mem {c : Char} : ∀ {s : PyStr}, c ∉ s →
    splitFirst c s = none := by
  intro s
  induction s with
  | nil => intro _; rfl
  | cons d t ih =>
    intro h
    have hd : ¬(d = c) := fun he => h (he ▸ List.mem_cons_self d t)
    have ht : c ∉ t := fun hm => h (List.mem_cons_of_mem d hm)
    simp [splitFirst, hd, ih ht]

theorem splitFirst_first_occ {c : Char} : ∀ (pre post : PyStr), c ∉ pre →
    splitFirst c (pre ++ c :: post) = some (pre, post) := by
  intro pre
  induction pre with
  | nil => intro post _; simp [splitFirst]
  | cons d t ih =>
    intro post h
    have hd : ¬(d = c) := fun he => h (he ▸ List.mem_cons_self d t)
    have ht : c ∉ t := fun hm => h (List.mem_cons_of_mem d hm)
    simp [splitFirst, hd, ih post ht]

theorem dropWhile_eq_nil_of_all {p : α → Bool} : ∀ {l : List α},
    (∀ x ∈ l, p x = true) → l.dropWhile p = [] := by
  intro l
  induction l with
  | nil => intro _; rfl
  | cons c t ih =>
    intro h
    rw [List.dropWhile_cons, if_pos (h c (List.mem_cons_self c t))]
    exact ih (fun x hx => h x (List.mem_cons_of_mem c hx))

theorem head_false_of_dropWhile_cons {p : α → Bool} {l : List α} {x : α} {r : List α}
    (h : l.dropWhile p = x :: r) : p x = false := by
  have hi : (l.dropWhile p).dropWhile p = l.dropWhile p := dropWhile_idem p l
  rw [h] at hi
  exact head_false_of_dropWhile_eq_self hi

theorem parse_singleline_row_ne_formatError (line : PyStr)
    (columns : List NetUseColumn) :
    parse_singleline_row line columns ≠ .error .formatError := by
  apply mapM_ne_error
  intro p h
  simp only [pyDictGetE, Except.map] at h
  cases hx : pyDictGet (columns.map (fun c => (c.name, c.extract line))) p.1 with
  | some v => rw [hx] at h; simp at h
  | none => rw [hx] at h; simp at h

theorem parse_multiline_row_ne_formatError (line1 line2 : PyStr)
    (columns : List NetUseColumn) :
    parse_multiline_row line1 line2 columns ≠ .error .formatError := by
  unfold parse_multiline_row
  by_cases h : columns.length < 2
  · simp [h]
  · rw [if_neg h]
    exact parse_singleline_row_ne_formatError _ _

theorem build_ne_formatError (columns : List NetUseColumn) (body_lines : List PyStr) :
    build_net_use_table_from_parts columns body_lines ≠ .error .formatError := by
  unfold build_net_use_table_from_parts
  have hfold := foldlM_ne_error (buildStep columns) PyError.formatError
    (by
      intro acc pr
      unfold buildStep
      by_cases hsp : startsWithSpace pr.1
      · simp [hsp, Pure.pure, Except.pure]
      · rw [if_neg hsp]
        by_cases hsp2 : startsWithSpace pr.2
        · rw [if_pos hsp2]
          intro h
          cases hx : parse_multiline_row pr.1 pr.2 columns with
          | error e =>
            rw [hx] at h
            simp [Bind.bind, Except.bind] at h
            cases h
            exact parse_multiline_row_ne_formatError pr.1 pr.2 columns hx
          | ok row =>
            rw [hx] at h
            simp [Bind.bind, Except.bind, Pure.pure, Except.pure] at h
        · rw [if_neg hsp2]
          intro h
          cases hx : parse_singleline_row pr.1 columns with
          | error e =>
            rw [hx] at h
            simp [Bind.bind, Except.bind] at h
            cases h
            exact parse_singleline_row_ne_formatError pr.1 columns hx
          | ok row =>
            rw [hx] at h
            simp [Bind.bind, Except.bind, Pure.pure, Except.pure] at h)
    (body_lines.zip (body_lines.drop 1 ++ [[]])) []
  intro h
  cases hx : (body_lines.zip (body_lines.drop 1 ++ [[]])).foldlM (buildStep columns) [] with
  | error e =>
    rw [hx] at h
    simp [Bind.bind, Except.bind] at h
    cases h
    exact hfold hx
  | ok rows =>
    rw [hx] at h
    simp [Bind.bind, Except.bind, Pure.pure, Except.pure] at h

theorem bind_ne_error_of_parts {ε α β : Type} {x : Except ε α}
    {rest : α → Except ε β} {e0 : ε} (hx : x ≠ .error e0)
    (hrest : ∀ a, rest a ≠ .error e0) : (x >>= rest) ≠ .error e0 := by
  intro h
  cases hv : x with
  | error e =>
    rw [hv] at h
    simp [Bind.bind, Except.bind] at h
    cases h
    exact hx hv
  | ok a =>
    rw [hv] at h
    simp only [Bind.bind, Except.bind] at h
    exact hrest a h

theorem get_columns_eq_formatError_iff (lines : List PyStr) :
    get_columns lines = .error .formatError ↔
      rfirst isHeaderLine (take_while (fun x => !is_line_separator x) lines) = none := by
  constructor
  · intro h
    cases hr : rfirst isHeaderLine (take_while (fun x => !is_line_separator x) lines) with
    | none => rfl
    | some headings =>
      exfalso
      simp only [get_columns] at h
      rw [hr] at h
      refine bind_ne_error_of_parts ?_ ?_ h
      · apply mapM_ne_error
        intro n
        split
        · simp
        · simp
      · intro starts
        simp [Pure.pure, Except.pure]
  · intro h
    simp only [get_columns]
    rw [h]

theorem buildStep_shift (columns : List NetUseColumn) :
    ∀ (acc : List Row) (pr : PyStr × PyStr),
      buildStep columns acc pr =
        (buildStep columns [] pr).map (fun r => acc ++ r) := by
  intro acc pr
  unfold buildStep
  by_cases hsp : startsWithSpace pr.1
  · simp [hsp, Except.map, Pure.pure, Except.pure]
  · rw [if_neg hsp, if_neg hsp]
    by_cases hsp2 : startsWithSpace pr.2
    · simp only [hsp2, if_true]
      cases parse_multiline_row pr.1 pr.2 columns with
      | error e => simp [Except.map, Bind.bind, Except.bind]
      | ok row => simp [Except.map, Bind.bind, Except.bind, Pure.pure, Except.pure]
    · simp only [hsp2, if_false]
      cases parse_singleline_row pr.1 columns with
      | error e => simp [Except.map, Bind.bind, Except.bind]
      | ok row => simp [Except.map, Bind.bind, Except.bind, Pure.pure, Except.pure]

theorem build_fold_eq_claimRows (columns : List NetUseColumn) :
    ∀ (body : List PyStr),
      (body.zip (body.drop 1 ++ [[]])).foldlM (buildStep columns) [] =
        (claimRowResults columns body).mapM id := by
  intro body
  induction body with
  | nil => rfl
  | cons l1 tail ih =>
    cases tail with
    | nil =>
      show [(l1, ([] : PyStr))].foldlM (buildStep columns) [] = _
      rw [List.foldlM_cons]
      by_cases hsp : startsWithSpace l1
      · have hstep : buildStep columns [] (l1, ([] : PyStr)) = pure [] := by
          simp [buildStep, hsp]
        have hcr : claimRowResults columns [l1] = [] := by
          simp [claimRowResults, hsp]
        rw [hstep, hcr]
        rfl
      · have hcr : claimRowResults columns [l1] = [parse_singleline_row l1 columns] := by
          simp [claimRowResults, hsp]
        rw [hcr]
        simp only [buildStep, hsp, if_false]
        cases hr : parse_singleline_row l1 columns with
        | error e => rfl
        | ok row => rfl
    | cons l2 rest =>
      have hpair : ((l1 :: l2 :: rest).zip ((l1 :: l2 :: rest).drop 1 ++ [[]])) =
          (l1, l2) :: ((l2 :: rest).zip ((l2 :: rest).drop 1 ++ [[]])) := rfl
      rw [hpair, List.foldlM_cons]
      by_cases hsp : startsWithSpace l1
      · have hstep : buildStep columns [] (l1, l2) = pure [] := by
          simp [buildStep, hsp]
        rw [hstep]
        show ((l2 :: rest).zip ((l2 :: rest).drop 1 ++ [[]])).foldlM
          (buildStep columns) [] = _
        rw [ih]
        simp [claimRowResults, hsp]
      · simp only [buildStep, hsp, if_false]
        have hclaim : claimRowResults columns (l1 :: l2 :: rest) =
            (if startsWithSpace l2 then parse_multiline_row l1 l2 columns
              else parse_singleline_row l1 columns) ::
              claimRowResults columns (l2 :: rest) := by
          simp [claimRowResults, hsp]
        rw [hclaim]
        by_cases hsp2 : startsWithSpace l2
        · simp only [hsp2, if_true]
          cases hr : parse_multiline_row l1 l2 columns with
          | error e => rfl
          | ok row =>
            rw [List.mapM_cons]
            simp only [Bind.bind, Except.bind, id, Pure.pure, Except.pure, hr]
            show ((l2 :: rest).zip ((l2 :: rest).drop 1 ++ [[]])).foldlM
              (buildStep columns) [row] = _
            rw [foldlM_shift (buildStep_shift columns) _ [row], ih]
            cases (claimRowResults columns (l2 :: rest)).mapM id with
            | error e => rfl
            | ok rs => rfl
        · simp only [hsp2, if_false]
          cases hr : parse_singleline_row l1 columns with
          | error e => rfl
          | ok row =>
            rw [List.mapM_cons]
            simp only [Bind.bind, Except.bind, id, Pure.pure, Except.pure, hr]
            show ((l2 :: rest).zip ((l2 :: rest).drop 1 ++ [[]])).foldlM
              (buildStep columns) [row] = _
            rw [foldlM_shift (buildStep_shift columns) _ [row], ih]
            cases (claimRowResults columns (l2 :: rest)).mapM id with
            | error e => rfl
            | ok rs => rfl

theorem adjust_columns_length (columns : List NetUseColumn) (n1 : Nat) :
    (adjust_columns columns n1).length = columns.length := by
  simp [adjust_columns, List.length_modify]

theorem adjust_columns_getLast (columns : List NetUseColumn) (n1 : Nat)
    (h2 : 2 ≤ columns.length) {cl : NetUseColumn}
    (hcl : columns.getLast? = some cl) :
    (adjust_columns columns n1).getLast? = some { cl with start := n1 + 1 } := by
  rw [List.getLast?_eq_getElem?] at hcl
  rw [List.getLast?_eq_getElem?, adjust_columns_length]
  have hne : columns.length - 2 ≠ columns.length - 1 := by omega
  simp only [adjust_columns]
  rw [List.getElem?_modify, List.getElem?_modify]
  rw [hcl]
  simp [hne]

theorem forall₂_mem_right {α β : Type} {R : α → β → Prop} {l : List α} {r : List β}
    (h : List.Forall₂ R l r) : ∀ {b}, b ∈ r → ∃ a, a ∈ l ∧ R a b := by
  induction h with
  | nil => intro b hb; simp at hb
  | cons hab htail ih =>
    intro b hb
    rcases List.mem_cons.mp hb with hb1 | hb2
    · exact ⟨_, List.mem_cons_self _ _, hb1 ▸ hab⟩
    · obtain ⟨a, ha, hr⟩ := ih hb2
      exact ⟨a, List.mem_cons_of_mem _ ha, hr⟩

theorem pyDictGet_mem {d : Row} {k v : PyStr} (h : pyDictGet d k = some v) :
    ∃ p, p ∈ d ∧ p.2 = v := by
  simp only [pyDictGet] at h
  cases hg : (d.filter (fun p => decide (p.1 = k))).getLast? with
  | none => rw [hg] at h; simp at h
  | some x =>
    rw [hg] at h
    have hx : x ∈ d.filter (fun p => decide (p.1 = k)) :=
      List.mem_of_mem_getLast? hg
    have hxd : x ∈ d := List.mem_of_mem_filter hx
    simp only [Option.map_some'] at h
    exact ⟨x, hxd, by simpa using h⟩

theorem extract_value_trimmed {line : PyStr} {columns : List NetUseColumn}
    {k v : PyStr}
    (h : pyDictGet (columns.map (fun c => (c.name, c.extract line))) k = some v) :
    pystrip v = v := by
  obtain ⟨p, hp, hv⟩ := pyDictGet_mem h
  obtain ⟨c, _, hc⟩ := List.mem_map.mp hp
  rw [← hv, ← hc]
  exact pystrip_extract c line

theorem parse_singleline_row_ok_shape {line : PyStr} {columns : List NetUseColumn}
    {row : Row} (h : parse_singleline_row line columns = .ok row) :
    row.map Prod.fst = [localKey, remoteKey, statusKey] ∧
      ∀ p ∈ row, pystrip p.2 = p.2 := by
  simp only [parse_singleline_row, rekey_dict,
    MAP_RAW_COLUMNS_TO_STANDARD_COLUMNS] at h
  have hf := mapM_ok_forall₂.mp h
  cases hf with
  | @cons _ b1 _ bs1 h1 hf' =>
    cases hf' with
    | @cons _ b2 _ bs2 h2 hf'' =>
      cases hf'' with
      | @cons _ b3 _ bs3 h3 hnil =>
        cases hnil
        have g1 : ∃ v, pyDictGet (columns.map (fun c => (c.name, c.extract line)))
            "Local".data = some v ∧ b1 = (localKey, v) := by
          simp only [pyDictGetE, Except.map] at h1
          cases hd : pyDictGet (columns.map (fun c => (c.name, c.extract line)))
              "Local".data with
          | none => rw [hd] at h1; simp at h1
          | some v => rw [hd] at h1; simp at h1; exact ⟨v, rfl, h1.symm⟩
        have g2 : ∃ v, pyDictGet (columns.map (fun c => (c.name, c.extract line)))
            "Remote".data = some v ∧ b2 = (remoteKey, v) := by
          simp only [pyDictGetE, Except.map] at h2
          cases hd : pyDictGet (columns.map (fun c => (c.name, c.extract line)))
              "Remote".data with
          | none => rw [hd] at h2; simp at h2
          | some v => rw [hd] at h2; simp at h2; exact ⟨v, rfl, h2.symm⟩
        have g3 : ∃ v, pyDictGet (columns.map (fun c => (c.name, c.extract line)))
            "Status".data = some v ∧ b3 = (statusKey, v) := by
          simp only [pyDictGetE, Except.map] at h3
          cases hd : pyDictGet (columns.map (fun c => (c.name, c.extract line)))
              "Status".data with
          | none => rw [hd] at h3; simp at h3
          | some v => rw [hd] at h3; simp at h3; exact ⟨v, rfl, h3.symm⟩
        obtain ⟨v1, hd1, hb1⟩ := g1
        obtain ⟨v2, hd2, hb2⟩ := g2
        obtain ⟨v3, hd3, hb3⟩ := g3
        subst hb1; subst hb2; subst hb3
        constructor
        · rfl
        · intro p hp
          rcases List.mem_cons.mp hp with rfl | hp'
          · exact extract_value_trimmed hd1
          · rcases List.mem_cons.mp hp' with rfl | hp''
            · exact extract_value_trimmed hd2
            · rcases List.mem_cons.mp hp'' with rfl | hp'''
              · exact extract_value_trimmed hd3
              · simp at hp'''

theorem parse_multiline_row_ok {line1 line2 : PyStr} {columns : List NetUseColumn}
    {row : Row} (h : parse_multiline_row line1 line2 columns = .ok row) :
    ∃ line cs, parse_singleline_row line cs = .ok row := by
  unfold parse_multiline_row at h
  by_cases hlen : columns.length < 2
  · rw [if_pos hlen] at h; simp at h
  · rw [if_neg hlen] at h
    exact ⟨_, _, h⟩

theorem claimRowResults_mem (columns : List NetUseColumn) :
    ∀ (body : List PyStr) (x : Except PyError Row),
      x ∈ claimRowResults columns body →
      (∃ a b, x = parse_multiline_row a b columns) ∨
        (∃ a, x = parse_singleline_row a columns) := by
  intro body
  induction body with
  | nil => intro x hx; simp [claimRowResults] at hx
  | cons l1 tail ih =>
    cases tail with
    | nil =>
      intro x hx
      by_cases hsp : startsWithSpace l1
      · simp [claimRowResults, hsp] at hx
      · simp [claimRowResults, hsp] at hx
        exact Or.inr ⟨l1, hx⟩
    | cons l2 rest =>
      intro x hx
      by_cases hsp : startsWithSpace l1
      · rw [show claimRowResults columns (l1 :: l2 :: rest) =
            claimRowResults columns (l2 :: rest) by
          simp [claimRowResults, hsp]] at hx
        exact ih x hx
      · rw [show claimRowResults columns (l1 :: l2 :: rest) =
            (if startsWithSpace l2 then parse_multiline_row l1 l2 columns
              else parse_singleline_row l1 columns) ::
              claimRowResults columns (l2 :: rest) by
          simp [claimRowResults, hsp]] at hx
        rcases List.mem_cons.mp hx with hx1 | hx2
        · by_cases hsp2 : startsWithSpace l2
          · rw [if_pos hsp2] at hx1
            exact Or.inl ⟨l1, l2, hx1⟩
          · rw [if_neg hsp2] at hx1
            exact Or.inr ⟨l1, hx1⟩
        · exact ih x hx2

theorem pyIndex_spec {sub : PyStr} : ∀ {hay : PyStr} {i : Nat},
    pyIndex hay sub = some i →
    sub.isPrefixOf (hay.drop i) = true ∧
      ∀ j < i, sub.isPrefixOf (hay.drop j) = false := by
  intro hay
  induction hay with
  | nil =>
    intro i h
    simp only [pyIndex, pyIndexAux] at h
    by_cases he : sub.isEmpty
    · rw [if_pos he] at h
      have hi : i = 0 := by simpa using h.symm
      subst hi
      have hsub : sub = [] := by simpa [List.isEmpty_iff] using he
      subst hsub
      exact ⟨rfl, fun j hj => absurd hj (by omega)⟩
    · rw [if_neg he] at h
      cases h
  | cons c t ih =>
    intro i h
    simp only [pyIndex, pyIndexAux] at h
    by_cases hp : sub.isPrefixOf (c :: t)
    · rw [if_pos hp] at h
      have hi : i = 0 := by simpa using h.symm
      subst hi
      exact ⟨by simpa using hp, fun j hj => absurd hj (by omega)⟩
    · rw [if_neg hp] at h
      cases ha : pyIndexAux sub t with
      | none => rw [ha] at h; simp at h
      | some i' =>
        rw [ha] at h
        simp only [Option.map_some', Option.some_inj] at h
        obtain ⟨h1, h2⟩ := ih (show pyIndex t sub = some i' from ha)
        subst h
        constructor
        · simpa using h1
        · intro j hj
          cases j with
          | zero =>
            simp only [List.drop_zero]
            cases hx : sub.isPrefixOf (c :: t)
            · rfl
            · exact absurd hx hp
          | succ j' =>
            have : j' < i' := by omega
            simpa using h2 j' this

/-! ## Claims -/

/-- C3 (amended): row reconstruction follows the claim's pairwise walk —
whenever a line not beginning with a space is immediately followed by a
line beginning with a space, the two lines form exactly one logical row,
parsed from the synthetic line `current + ' ' + strip(next)` under the
per-row layout in which the second-to-last column ends at `len(current)`
and the last column starts at `len(current) + 1`, and a line beginning
with a space never starts a row of its own (first conjunct: a successful
build produces exactly the rows of the claim-side walk `claimRowResults`,
whose qualifying pairs are the `parse_multiline_row` applications); and
the resulting row's last field is the whitespace-trimmed continuation
line alone, `strip(next)` — the first line's trailing content is absorbed
into the second-to-last field, not joined into the last one (second
conjunct, for any layout whose last column runs to the end of the line). -/
theorem c3_two_line_rows :
    (∀ (columns : List NetUseColumn) (body_lines : List PyStr) (t : NetUseTable),
      build_net_use_table_from_parts columns body_lines = .ok t →
      (claimRowResults columns body_lines).mapM id = .ok t.rows) ∧
    (∀ (columns : List NetUseColumn) (line1 line2 : PyStr) (c : NetUseColumn),
      2 ≤ columns.length →
      (columns.getLast?).map NetUseColumn.«end» = some none →
      (adjust_columns columns line1.length).getLast? = some c →
      c.extract (line1 ++ ' ' :: pystrip line2) = pystrip line2) := by
  constructor
  · intro columns body_lines t h
    rw [← build_fold_eq_claimRows]
    unfold build_net_use_table_from_parts at h
    cases hx : (body_lines.zip (body_lines.drop 1 ++ [[]])).foldlM
        (buildStep columns) [] with
    | error e =>
      rw [hx] at h
      simp [Bind.bind, Except.bind] at h
    | ok rows =>
      rw [hx] at h
      simp only [Bind.bind, Except.bind, Pure.pure, Except.pure,
        Except.ok.injEq] at h
      rw [← h]
  · intro columns line1 line2 c h2 hend hlast
    cases hgl : columns.getLast? with
    | none => rw [hgl] at hend; simp at hend
    | some cl =>
      rw [hgl] at hend
      have hcle : cl.«end» = none := by simpa using hend
      rw [adjust_columns_getLast columns line1.length h2 hgl] at hlast
      have hc : c = { cl with start := line1.length + 1 } := by
        simpa using hlast.symm
      subst hc
      simp only [NetUseColumn.extract, pySlice, hcle]
      have hdrop : (line1 ++ ' ' :: pystrip line2).drop (line1.length + 1) =
          pystrip line2 := by
        simp
      rw [hdrop, pystrip_idem]

/-- Witness for C3: both parts at a concrete table — a header layout of
three columns, a two-line row whose continuation holds `OK`; the build
produces exactly the one claimed row, and the adjusted last column
extracts exactly the trimmed continuation line. -/
theorem c3_two_line_rows_witness :
    (claimRowResults
        [⟨"Local".data, 0, some 5⟩, ⟨"Remote".data, 6, some 12⟩,
          ⟨"Status".data, 13, none⟩]
        ["Z:    \\\\a\\b   XX".data, "  OK".data]).mapM id =
      .ok [[(localKey, "Z:".data), (remoteKey, "\\\\a\\b   XX".data),
        (statusKey, "OK".data)]] ∧
    NetUseColumn.extract ⟨"Status".data, 17, none⟩
      ("Z:    \\\\a\\b   XX".data ++ ' ' :: pystrip "  OK".data) =
      pystrip "  OK".data := by
  constructor
  · exact c3_two_line_rows.1
      [⟨"Local".data, 0, some 5⟩, ⟨"Remote".data, 6, some 12⟩,
        ⟨"Status".data, 13, none⟩]
      ["Z:    \\\\a\\b   XX".data, "  OK".data]
      ⟨[[(localKey, "Z:".data), (remoteKey, "\\\\a\\b   XX".data),
        (statusKey, "OK".data)]]⟩
      (by decide)
  · exact c3_two_line_rows.2
      [⟨"Local".data, 0, some 5⟩, ⟨"Remote".data, 6, some 12⟩,
        ⟨"Status".data, 13, none⟩]
      "Z:    \\\\a\\b   XX".data "  OK".data ⟨"Status".data, 17, none⟩
      (by decide) (by decide) (by decide)

/-- Counterexample for C3 as stated: the claim says a two-line row's last
field equals the space-joined, trimmed concatenation of the trailing
content of both lines.  On the table below, the first line's trailing
content (at the last column's original offset 13) is `XX` and the
continuation line holds `OK`, so the claim predicts the last field
`XX OK`; the code produces `OK` alone — the first line's `XX` is absorbed
into the second-to-last (`remote`) field instead. -/
theorem c3_counterexample_last_field_drops_first_line_tail :
    parse_populated_net_use_table
      "Local Remote Status\n-------------------\nZ:    \\\\a\\b   XX\n  OK".data =
      .ok ⟨[[(localKey, "Z:".data), (remoteKey, "\\\\a\\b   XX".data),
        (statusKey, "OK".data)]]⟩ ∧
    pystrip (pystrip (pySlice "Z:    \\\\a\\b   XX".data 13 none) ++
      ' ' :: pystrip "  OK".data) = "XX OK".data ∧
    ("OK".data : PyStr) ≠ "XX OK".data :=
  ⟨rfl, rfl, by decide⟩

/-- C4 (amended): parsing an input without the empty-table sentinel fails
with a `FormatError` exactly when no line whose first character is
alphabetic occurs among the lines before the first separator — all lines
counting as candidates when no separator exists.  A separator is not
itself required: other failure kinds (missing standard column titles,
fewer than two columns on a two-line row, an absent split name) are not
`FormatError`s. -/
theorem c4_populated_parse_formatError_iff_no_header (s : PyStr)
    (hsent : pyIn EMPTY_TABLE_INDICATOR s = false) :
    parse_net_use_table s = .error .formatError ↔
      ∀ l ∈ take_while (fun x => !is_line_separator x) ((splitOnNl s).map pyrstrip),
        isHeaderLine l = false := by
  have hp : parse_net_use_table s = parse_populated_net_use_table s := by
    simp [parse_net_use_table, hsent]
  rw [hp]
  simp only [parse_populated_net_use_table]
  constructor
  · intro h
    rw [← rfirst_eq_none_iff (p := isHeaderLine), ← get_columns_eq_formatError_iff]
    cases hc : get_columns ((splitOnNl s).map pyrstrip) with
    | error e =>
      rw [hc] at h
      simp [Bind.bind, Except.bind] at h
      rw [h]
    | ok cols =>
      rw [hc] at h
      simp only [Bind.bind, Except.bind] at h
      exact absurd h (build_ne_formatError cols _)
  · intro hall
    have hnone : rfirst isHeaderLine
        (take_while (fun x => !is_line_separator x) ((splitOnNl s).map pyrstrip)) =
        none := rfirst_eq_none_iff.mpr hall
    have hc : get_columns ((splitOnNl s).map pyrstrip) = .error .formatError :=
      (get_columns_eq_formatError_iff _).mpr hnone
    rw [hc]
    rfl

/-- Witness for C4: an input whose only pre-separator line starts with a
digit has no header candidate, and the parse indeed reports the format
failure. -/
theorem c4_populated_parse_formatError_iff_no_header_witness :
    pyIn EMPTY_TABLE_INDICATOR "1abc\n---".data = false ∧
    parse_net_use_table "1abc\n---".data = .error .formatError := by
  refine ⟨by decide, ?_⟩
  exact (c4_populated_parse_formatError_iff_no_header "1abc\n---".data
    (by decide)).mpr (by decide)

/-- Counterexample for C4 as stated: the claim says the parse fails (with
a `FormatError`) whenever no separator line of dashes exists in the input
at all; but the input `Header` — no separator anywhere, one
alphabetic-leading line — parses successfully to an empty table. -/
theorem c4_counterexample_no_separator_still_succeeds :
    pyIn EMPTY_TABLE_INDICATOR "Header".data = false ∧
    (∀ l ∈ (splitOnNl "Header".data).map pyrstrip, is_line_separator l = false) ∧
    parse_net_use_table "Header".data = .ok ⟨[]⟩ :=
  ⟨rfl, by decide, rfl⟩

/-- C5 (amended): after decomposing the input at its first separator line,
the body handed to row reconstruction is the maximal prefix of the
following lines whose lines are non-empty and differ from the completion
sentinel: every body line is such a line, the body is a prefix of the
post-separator lines, and the first line left out — when any is — is
either empty or the sentinel `The command completed successfully.` (the
body therefore ends at the first empty line as well as at the sentinel or
the end of input). -/
theorem c5_body_stops_at_empty_or_terminator (pre suf : List PyStr)
    (sepLine : PyStr) (hpre : ∀ l ∈ pre, is_line_separator l = false)
    (hsep : is_line_separator sepLine = true) :
    ∃ rest, suf = get_body (pre ++ sepLine :: suf) ++ rest ∧
      (∀ l ∈ get_body (pre ++ sepLine :: suf), isBodyLine l = true) ∧
      (rest = [] ∨ ∃ x rest2, rest = x :: rest2 ∧
        (x = [] ∨ x = LAST_TABLE_LINE)) := by
  have hdrop : (pre ++ sepLine :: suf).dropWhile (fun x => !is_line_separator x) =
      sepLine :: suf := by
    rw [List.dropWhile_append]
    have h1 : pre.dropWhile (fun x => !is_line_separator x) = [] :=
      dropWhile_eq_nil_of_all (fun x hx => by simp [hpre x hx])
    rw [h1]
    simp [List.dropWhile_cons, hsep]
  have hbody : get_body (pre ++ sepLine :: suf) = suf.takeWhile isBodyLine := by
    simp only [get_body, drop_while, take_while]
    rw [hdrop]
    cases suf with
    | nil => simp
    | cons a t => simp
  refine ⟨suf.dropWhile isBodyLine, ?_, ?_, ?_⟩
  · rw [hbody, List.takeWhile_append_dropWhile]
  · intro l hl
    rw [hbody] at hl
    exact List.mem_takeWhile_imp hl
  · cases hx : suf.dropWhile isBodyLine with
    | nil => exact Or.inl rfl
    | cons x r2 =>
      refine Or.inr ⟨x, r2, rfl, ?_⟩
      have hfx : isBodyLine x = false := head_false_of_dropWhile_cons hx
      by_cases hxe : x = []
      · exact Or.inl hxe
      · exact Or.inr (by simpa [isBodyLine, List.isEmpty_iff, hxe] using hfx)

/-- Witness for C5: the decomposition applied at a concrete input — a
banner line, a separator, then `r1`, an empty line and `r2`; the body is
`[r1]`, a prefix of the post-separator lines whose lines satisfy the body
predicate. -/
theorem c5_body_stops_at_empty_or_terminator_witness :
    ["r1".data, [], "r2".data] =
      get_body (["x".data] ++ "---".data :: ["r1".data, [], "r2".data]) ++
        [[], "r2".data] ∧
    isBodyLine "r1".data = true := by
  obtain ⟨rest, h1, h2, h3⟩ := c5_body_stops_at_empty_or_terminator
    ["x".data] ["r1".data, [], "r2".data] "---".data (by decide) (by decide)
  have hb : get_body (["x".data] ++ "---".data :: ["r1".data, [], "r2".data]) =
      ["r1".data] := rfl
  constructor
  · rw [hb] at h1
    have hrest : rest = [[], "r2".data] := by
      have := h1
      simpa using this.symm
    rw [hb, ← hrest]
    rfl
  · exact h2 "r1".data (by rw [hb]; exact List.mem_cons_self _ _)

/-- Counterexample for C5 as stated: the claim says the body consists of
all lines after the first separator up to the terminator line or the end
of input, omitting none before the terminator; but with body lines
`row1`, an empty line and `row2` (no terminator anywhere) the code keeps
only `row1` — the empty line cuts the body short. -/
theorem c5_counterexample_empty_line_cuts_body :
    get_body ["---".data, "row1".data, [], "row2".data] = ["row1".data] ∧
    claimBody ["---".data, "row1".data, [], "row2".data] =
      ["row1".data, [], "row2".data] ∧
    get_body ["---".data, "row1".data, [], "row2".data] ≠
      claimBody ["---".data, "row1".data, [], "row2".data] :=
  ⟨rfl, rfl, by decide⟩

/-- C6 (amended): column layout detection selects as the header the last
line, among those preceding the first all-dash separator, whose first
character is alphabetic (the source tests `x[0].isalpha()`, not the first
non-space character); the column names are that line split on whitespace
in order; each column's start is the index of the name's first occurrence
in the header line (the name occurs at `start` and at no earlier
position); each column's end is one less than the next column's start;
and the last column's end is unset. -/
theorem c6_column_layout (lines : List PyStr) (cols : List NetUseColumn)
    (h : get_columns lines = .ok cols) :
    ∃ a headings b,
      take_while (fun x => !is_line_separator x) lines = a ++ headings :: b ∧
      isHeaderLine headings = true ∧
      (∀ l ∈ b, isHeaderLine l = false) ∧
      cols.map NetUseColumn.name = pySplitWs headings ∧
      (∀ (k : Nat) (hk : k < cols.length),
        (cols.get ⟨k, hk⟩).name.isPrefixOf
          (headings.drop (cols.get ⟨k, hk⟩).start) = true ∧
        ∀ j < (cols.get ⟨k, hk⟩).start,
          (cols.get ⟨k, hk⟩).name.isPrefixOf (headings.drop j) = false) ∧
      (∀ (k : Nat) (hk : k + 1 < cols.length),
        (cols.get ⟨k, Nat.lt_of_succ_lt hk⟩).«end» =
          some (((cols.get ⟨k + 1, hk⟩).start : Int) - 1)) ∧
      (∀ (hne : cols ≠ []), (cols.getLast hne).«end» = none) := by
  simp only [get_columns] at h
  cases hr : rfirst isHeaderLine (take_while (fun x => !is_line_separator x) lines) with
  | none =>
    rw [hr] at h
    exact absurd h (by simp)
  | some headings =>
    rw [hr] at h
    obtain ⟨a, b, hdecomp, hcand, hb⟩ := rfirst_eq_some hr
    have h' : ((pySplitWs headings).mapM (fun n =>
        match pyIndex headings n with
        | some i => Except.ok i
        | none => Except.error PyError.valueError) >>= fun starts =>
        pure (((pySplitWs headings).zip (starts.zip
          ((starts.drop 1).map (fun (r : Nat) => some ((r : Int) - 1)) ++
            [none]))).map
          (fun x => (⟨x.1, x.2.1, x.2.2⟩ : NetUseColumn)))) = Except.ok cols := h
    clear h
    cases hm : (pySplitWs headings).mapM (fun n =>
        match pyIndex headings n with
        | some i => Except.ok i
        | none => Except.error PyError.valueError) with
    | error e =>
      rw [hm] at h'
      simp [Bind.bind, Except.bind] at h'
    | ok starts =>
      rw [hm] at h'
      simp only [Bind.bind, Except.bind, Pure.pure, Except.pure,
        Except.ok.injEq] at h'
      have hF := mapM_ok_forall₂.mp hm
      have hlen : (pySplitWs headings).length = starts.length := hF.length_eq
      have hpoint : ∀ (k : Nat) (hk1 : k < (pySplitWs headings).length)
          (hk2 : k < starts.length),
          pyIndex headings ((pySplitWs headings).get ⟨k, hk1⟩) =
            some (starts.get ⟨k, hk2⟩) := by
        have hptw := (List.forall₂_iff_get.mp hF).2
        intro k hk1 hk2
        have hg := hptw k hk1 hk2
        cases hpi : pyIndex headings ((pySplitWs headings).get ⟨k, hk1⟩) with
        | some i =>
          rw [hpi] at hg
          simp only [Except.ok.injEq] at hg
          rw [hg]
        | none =>
          rw [hpi] at hg
          simp at hg
      subst h'
      refine ⟨a, headings, b, hdecomp, hcand, hb, ?_, ?_, ?_, ?_⟩
      · rw [List.map_map]
        exact List.map_fst_zip _ _ (by
          rw [List.length_zip]
          simp only [List.length_append, List.length_map, List.length_drop,
            List.length_cons, List.length_nil]
          omega)
      · intro k hk
        have hk' := hk
        simp only [List.length_map, List.length_zip, List.length_append,
          List.length_drop, List.length_cons, List.length_nil, lt_min_iff] at hk'
        have hk1 : k < (pySplitWs headings).length := hk'.1
        have hk2 : k < starts.length := hk'.2.1
        simp only [List.get_eq_getElem, List.getElem_map, List.getElem_zip]
        exact pyIndex_spec (hpoint k hk1 hk2)
      · intro k hk
        have hk' := hk
        simp only [List.length_map, List.length_zip, List.length_append,
          List.length_drop, List.length_cons, List.length_nil, lt_min_iff] at hk'
        have hk2 : k + 1 < starts.length := hk'.2.1
        simp only [List.get_eq_getElem, List.getElem_map, List.getElem_zip]
        rw [List.getElem_append_left (by
          simp only [List.length_map, List.length_drop]
          omega)]
        rw [List.getElem_map, List.getElem_drop]
        simp only [show 1 + k = k + 1 from by omega]
      · intro hne
        have hlen1 : 0 < (((pySplitWs headings).zip (starts.zip
            ((starts.drop 1).map (fun (r : Nat) => some ((r : Int) - 1)) ++
              [none]))).map
            (fun x => (⟨x.1, x.2.1, x.2.2⟩ : NetUseColumn))).length :=
          List.length_pos.mpr hne
        have hlenx := hlen1
        simp only [List.length_map, List.length_zip, List.length_append,
          List.length_drop, List.length_cons, List.length_nil, lt_min_iff] at hlenx
        rw [List.getLast_eq_getElem]
        simp only [List.length_map, List.getElem_map, List.getElem_zip]
        rw [List.getElem_append_right (by
          simp only [List.length_map, List.length_zip, List.length_append,
            List.length_drop, List.length_cons, List.length_nil]
          omega)]
        simp

/-- Witness for C6: the characterization applied to a concrete header
block `Local Remote Status` over a separator: the names are the split of
the header, `Remote` occurs first at its recorded start 6, the first
column ends one before the second column's start, and the last column's
end is unset. -/
theorem c6_column_layout_witness :
    ([⟨"Local".data, 0, some 5⟩, ⟨"Remote".data, 6, some 12⟩,
        ⟨"Status".data, 13, none⟩] : List NetUseColumn).map NetUseColumn.name =
      pySplitWs "Local Remote Status".data ∧
    (([⟨"Local".data, 0, some 5⟩, ⟨"Remote".data, 6, some 12⟩,
        ⟨"Status".data, 13, none⟩] : List NetUseColumn).get
        ⟨1, by decide⟩).name.isPrefixOf
      ("Local Remote Status".data.drop
        (([⟨"Local".data, 0, some 5⟩, ⟨"Remote".data, 6, some 12⟩,
          ⟨"Status".data, 13, none⟩] : List NetUseColumn).get
          ⟨1, by decide⟩).start) = true ∧
    (([⟨"Local".data, 0, some 5⟩, ⟨"Remote".data, 6, some 12⟩,
        ⟨"Status".data, 13, none⟩] : List NetUseColumn).get ⟨0, by decide⟩).«end» =
      some ((((([⟨"Local".data, 0, some 5⟩, ⟨"Remote".data, 6, some 12⟩,
        ⟨"Status".data, 13, none⟩] : List NetUseColumn).get
          ⟨1, by decide⟩).start) : Int) - 1) ∧
    (([⟨"Local".data, 0, some 5⟩, ⟨"Remote".data, 6, some 12⟩,
        ⟨"Status".data, 13, none⟩] : List NetUseColumn).getLast
        (by decide)).«end» = none := by
  obtain ⟨a, hd, b, h1, h2, h3, h4, h5, h6, h7⟩ := c6_column_layout
    ["Local Remote Status".data, "-----".data]
    [⟨"Local".data, 0, some 5⟩, ⟨"Remote".data, 6, some 12⟩,
      ⟨"Status".data, 13, none⟩]
    (by decide)
  have h1' : ["Local Remote Status".data] = a ++ hd :: b := by
    rw [← h1]
    rfl
  have hhd : hd = "Local Remote Status".data := by
    cases a with
    | nil =>
      injection h1' with hx hb
      exact hx.symm
    | cons y a' =>
      injection h1' with hx hb
      exact absurd hb.symm (by simp)
  subst hhd
  exact ⟨h4, (h5 1 (by decide)).1, h6 0 (by decide), h7 (by decide)⟩

/-- Counterexample for C6 as stated: the claim selects the last
pre-separator line whose first *non-space* character is alphabetic.  On
the lines `AB CD`, `  x`, `-`, that selector picks `  x` (so the claimed
column names would be `[x]`), but the source tests the line's very first
character and picks `AB CD`, producing columns named `AB` and `CD`. -/
theorem c6_counterexample_first_nonspace_selector :
    rfirst claimHeaderCond
      (take_while (fun x => !is_line_separator x)
        ["AB CD".data, "  x".data, "-".data]) = some "  x".data ∧
    pySplitWs "  x".data = ["x".data] ∧
    (get_columns ["AB CD".data, "  x".data, "-".data]).map
      (fun cols => cols.map NetUseColumn.name) = .ok ["AB".data, "CD".data] ∧
    (["AB".data, "CD".data] : List PyStr) ≠ ["x".data] :=
  ⟨rfl, rfl, rfl, by decide⟩

/-- C2: address parsing splits at the occurrence of `'@'` immediately
followed by the UNC prefix `'\\'` chosen as far right as possible: when a
split point exists that no split point exceeds, the text before it is the
credential portion (handed to credential parsing) and the text after the
`'@'` is the path; with no split point anywhere the whole string is the
path and both credential fields are absent; and the claim's example
`user::@\\@\\path` parses to path `\\path`, username `user`, password
`:@\\`. -/
theorem c2_split_at_rightmost_unc_prefix :
    (∀ s : PyStr, (∀ i, isSplitPoint s i = false) →
      get_unc_directory_from_string s = ⟨s, none, none⟩) ∧
    (∀ (s : PyStr) (i : Nat),
      isSplitPoint s i = true → (∀ j, isSplitPoint s j = true → j ≤ i) →
      get_unc_directory_from_string s =
        ⟨s.drop (i + 1), (get_creds_from_string (s.take i)).username,
          (get_creds_from_string (s.take i)).password⟩) ∧
    get_unc_directory_from_string "user::@\\\\@\\\\path".data =
      ⟨"\\\\path".data, some "user".data, some ":@\\\\".data⟩ := by
  refine ⟨?_, ?_, by decide⟩
  · intro s h
    have hnone : lastSplitPoint s = none := by
      simp only [lastSplitPoint]
      rw [if_neg]
      simp [h]
    simp [get_unc_directory_from_string, hnone]
  · intro s i h1 h2
    have hsome : lastSplitPoint s = some i := by
      simp only [lastSplitPoint]
      have hPk : isSplitPoint s
          (Nat.findGreatest (fun j => isSplitPoint s j = true) s.length) = true :=
        Nat.findGreatest_spec (P := fun j => isSplitPoint s j = true)
          (Nat.le_of_lt (lt_length_of_isSplitPoint h1)) h1
      have hki : Nat.findGreatest (fun j => isSplitPoint s j = true) s.length = i :=
        Nat.le_antisymm (h2 _ hPk)
          (Nat.le_findGreatest (P := fun j => isSplitPoint s j = true)
            (Nat.le_of_lt (lt_length_of_isSplitPoint h1)) h1)
      rw [if_pos (by simpa using hPk), hki]
    simp [get_unc_directory_from_string, hsome]

/-- Witness for C2: the three parts applied at concrete addresses — a
string with no split point parses as a bare path, `u@\\p` splits at its
rightmost (only) split point, and the claim's own example evaluates as
stated. -/
theorem c2_split_at_rightmost_unc_prefix_witness :
    get_unc_directory_from_string "abc".data = ⟨"abc".data, none, none⟩ ∧
    get_unc_directory_from_string "u@\\\\p".data =
      ⟨"\\\\p".data, some "u".data, none⟩ := by
  constructor
  · apply c2_split_at_rightmost_unc_prefix.1
    intro i
    match i with
    | 0 => decide
    | 1 => decide
    | 2 => decide
    | (n + 3) =>
      exact isSplitPoint_false_of_le
        (le_trans (show "abc".data.length ≤ 3 by decide) (by omega))
  · have h := c2_split_at_rightmost_unc_prefix.2.1 "u@\\\\p".data 1
      (by decide)
      (fun j hj => by
        match j with
        | 0 => exact absurd hj (by decide)
        | 1 => exact le_refl 1
        | 2 => exact absurd hj (by decide)
        | 3 => exact absurd hj (by decide)
        | 4 => exact absurd hj (by decide)
        | (n + 5) =>
          rw [isSplitPoint_false_of_le
            (le_trans (show "u@\\\\p".data.length ≤ 5 by decide) (by omega))] at hj
          cases hj)
    exact h.trans (by decide)

/-- C7 (amended): non-empty credential text splits on the first colon; the
text before the colon becomes the username unless it is empty, in which
case the username is absent (an empty string before a colon yields an
absent username, exactly as when no colon is found in empty text);
when a colon was found everything after it, further colons included,
becomes the password (possibly the empty string); with no colon the
password is absent. -/
theorem c7_creds_split_on_first_colon :
    get_creds_from_string [] = ⟨none, none⟩ ∧
    (∀ (pre post : PyStr), ':' ∉ pre →
      get_creds_from_string (pre ++ ':' :: post) =
        ⟨if pre = [] then none else some pre, some post⟩) ∧
    (∀ s : PyStr, s ≠ [] → ':' ∉ s → get_creds_from_string s = ⟨some s, none⟩) := by
  refine ⟨rfl, ?_, ?_⟩
  · intro pre post h
    simp [get_creds_from_string, splitFirst_first_occ pre post h]
  · intro s h1 h2
    simp [get_creds_from_string, splitFirst_of_not_mem h2, h1]

/-- Witness for C7: the characterization applied at the repository's own
test inputs — `':pass'` gives an absent username with password `pass`,
`'user:pass'` gives both, and `'user'` gives a username only. -/
theorem c7_creds_split_on_first_colon_witness :
    get_creds_from_string ":pass".data = ⟨none, some "pass".data⟩ ∧
    get_creds_from_string "user:pass".data = ⟨some "user".data, some "pass".data⟩ ∧
    get_creds_from_string "user".data = ⟨some "user".data, none⟩ := by
  refine ⟨?_, ?_, ?_⟩
  · exact (c7_creds_split_on_first_colon.2.1 [] "pass".data (by decide)).trans
      (by decide)
  · exact (c7_creds_split_on_first_colon.2.1 "user".data "pass".data
      (by decide)).trans (by decide)
  · exact c7_creds_split_on_first_colon.2.2 "user".data (by decide) (by decide)

/-- Counterexample for C7 as stated: the claim says an empty string before
a colon is an explicit empty-string username distinct from absent, but on
`':pass'` the parser (pinned by the repository's test
`get_creds_from_string(':pass') == UncCredentials(None, 'pass')`, with
absent and empty unequal per spec section 4.6) yields an absent username,
not the explicit empty string. -/
theorem c7_counterexample_empty_username_is_absent :
    (get_creds_from_string ":pass".data).username = none ∧
    (get_creds_from_string ":pass".data).username ≠ some [] := by
  exact ⟨rfl, by decide⟩

/-- C1: the claim (with the spec) says that `remote` matching in
`get_matching_rows` normalizes a path ending in `\ipc$` by truncating that
suffix off, leaving only the host portion, so a query for `\\host\ipc$`
matches a row whose remote is `\\host`.  The source's
`normalize_remote_path` instead returns `path[-5:]` — it keeps only the
five suffix characters `\ipc$` and discards the host.  Evaluated at the
claim's own example: `\\host\ipc$` normalizes to `\ipc$`, `\\host`
normalizes to itself, and the query consequently matches no row at all. -/
theorem c1_ipc_normalization_keeps_suffix :
    normalize_remote_path "\\\\host\\ipc$".data = "\\ipc$".data ∧
    normalize_remote_path "\\\\host".data = "\\\\host".data ∧
    get_matching_rows
      ⟨[[(localKey, "Z:".data), (remoteKey, "\\\\host".data), (statusKey, "OK".data)]]⟩
      none (some "\\\\host\\ipc$".data) none = .ok [] :=
  ⟨rfl, rfl, rfl⟩

/-- C10: `get_matching_rows` tests each criterion for truthiness, so a
criterion that is the empty string behaves exactly like an unset
criterion, in each of the three positions, and filters no row out; with
no criteria every row is returned. -/
theorem c10_empty_criterion_matches_all (t : NetUseTable) (lo re st : Option PyStr) :
    get_matching_rows t (some []) re st = get_matching_rows t none re st ∧
    get_matching_rows t lo (some []) st = get_matching_rows t lo none st ∧
    get_matching_rows t lo re (some []) = get_matching_rows t lo re none ∧
    get_matching_rows t none none none = .ok t.rows := by
  refine ⟨rfl, rfl, rfl, ?_⟩
  have key : ∀ (rows acc : List Row),
      rows.foldlM (fun (result : List Row) (row : Row) =>
        (pure (result ++ [row]) : Except PyError (List Row))) acc =
      .ok (acc ++ rows) := by
    intro rows
    induction rows with
    | nil => intro acc; simp [List.foldlM_nil, Pure.pure, Except.pure]
    | cons r rs ih =>
      intro acc
      rw [List.foldlM_cons]
      show rs.foldlM _ (acc ++ [r]) = _
      rw [ih (acc ++ [r])]
      simp
  exact key t.rows []

/-- C8: every row of a successfully parsed populated table — single-line
or two-line, with or without extra unrecognized columns — is a mapping
with exactly the three standardized keys `local`, `remote` and `status`,
in that order, each bound to a whitespace-trimmed string value (rekeying
succeeds only when the detected header carries the raw titles `Local`,
`Remote` and `Status`, so a parsed table presupposes them). -/
theorem c8_rows_have_standard_trimmed_fields (s : PyStr) (t : NetUseTable)
    (h : parse_populated_net_use_table s = .ok t) :
    ∀ row ∈ t.rows, row.map Prod.fst = [localKey, remoteKey, statusKey] ∧
      ∀ p ∈ row, pystrip p.2 = p.2 := by
  intro row hrow
  simp only [parse_populated_net_use_table] at h
  cases hc : get_columns ((splitOnNl s).map pyrstrip) with
  | error e =>
    rw [hc] at h
    simp [Bind.bind, Except.bind] at h
  | ok cols =>
    rw [hc] at h
    simp only [Bind.bind, Except.bind] at h
    unfold build_net_use_table_from_parts at h
    cases hx : ((get_body ((splitOnNl s).map pyrstrip)).zip
        ((get_body ((splitOnNl s).map pyrstrip)).drop 1 ++ [[]])).foldlM
        (buildStep cols) [] with
    | error e =>
      rw [hx] at h
      simp [Bind.bind, Except.bind] at h
    | ok rows =>
      rw [hx] at h
      simp only [Bind.bind, Except.bind, Pure.pure, Except.pure,
        Except.ok.injEq] at h
      have hrows : t.rows = rows := by rw [← h]
      have hm : (claimRowResults cols (get_body ((splitOnNl s).map pyrstrip))).mapM
          id = .ok rows := by
        rw [← build_fold_eq_claimRows]
        exact hx
      have hf := mapM_ok_forall₂.mp hm
      obtain ⟨x, hxmem, hxr⟩ := forall₂_mem_right hf (hrows ▸ hrow)
      rcases claimRowResults_mem cols _ x hxmem with ⟨a, b, hteq⟩ | ⟨a, hteq⟩
      · obtain ⟨line, cs, hok⟩ := parse_multiline_row_ok
          (show parse_multiline_row a b cols = .ok row from by
            rw [← hteq]; exact hxr)
        exact parse_singleline_row_ok_shape hok
      · exact parse_singleline_row_ok_shape
          (show parse_singleline_row a cols = .ok row from by
            rw [← hteq]; exact hxr)

/-- Witness for C8: the theorem applied at a concrete populated input; the
parsed row carries exactly the three standardized keys and each of its
three values is trimmed. -/
theorem c8_rows_have_standard_trimmed_fields_witness :
    ([(localKey, "Z:".data), (remoteKey, "\\\\a\\b".data),
        (statusKey, "OK".data)] : Row).map Prod.fst =
      [localKey, remoteKey, statusKey] ∧
    pystrip "Z:".data = "Z:".data ∧
    pystrip "\\\\a\\b".data = "\\\\a\\b".data ∧
    pystrip "OK".data = "OK".data := by
  have h := c8_rows_have_standard_trimmed_fields
    "Local Remote Status\n-------------------\nZ:    \\\\a\\b   OK".data
    ⟨[[(localKey, "Z:".data), (remoteKey, "\\\\a\\b".data),
      (statusKey, "OK".data)]]⟩ (by decide)
    [(localKey, "Z:".data), (remoteKey, "\\\\a\\b".data), (statusKey, "OK".data)]
    (List.mem_cons_self _ _)
  refine ⟨h.1, ?_, ?_, ?_⟩
  · exact h.2 (localKey, "Z:".data) (by decide)
  · exact h.2 (remoteKey, "\\\\a\\b".data) (by decide)
  · exact h.2 (statusKey, "OK".data) (by decide)

/-- C9: the column-layout adjustment of a two-line row acts only on a
per-row deep copy of the column list.  In the state-passing embedding of
the mutation (`parse_multiline_rowS`, `build_net_use_table_from_partsS`)
the caller's column list after a `parse_multiline_row` call is its list
before the call, the row produced is the one `parse_multiline_row`
computes, and threading the column state through the whole build leaves
every later row parsed with the original, unmodified layout — the
threaded build is the plain build with the original columns, and the
final column state is the original list. -/
theorem c9_multiline_row_preserves_columns (columns : List NetUseColumn)
    (line1 line2 : PyStr) (body_lines : List PyStr) :
    (parse_multiline_rowS columns line1 line2).2 = columns ∧
    (parse_multiline_rowS columns line1 line2).1 = parse_multiline_row line1 line2 columns ∧
    build_net_use_table_from_partsS columns body_lines =
      (build_net_use_table_from_parts columns body_lines, columns) := by
  refine ⟨rfl, rfl, ?_⟩
  have step_eq : ∀ (acc : List Row) (pr : PyStr × PyStr),
      buildStepS (acc, columns) pr =
        (buildStep columns acc pr).map (fun rs => (rs, columns)) := by
    intro acc pr
    by_cases hsp : startsWithSpace pr.1
    · simp [buildStepS, buildStep, hsp, Except.map, Pure.pure, Except.pure]
    · simp only [buildStepS, buildStep, hsp, if_false]
      by_cases hsp2 : startsWithSpace pr.2
      · simp only [hsp2, if_true, parse_multiline_rowS]
        cases parse_multiline_row pr.1 pr.2 columns with
        | error e => simp [Except.map, Bind.bind, Except.bind]
        | ok row => simp [Except.map, Bind.bind, Except.bind, Pure.pure, Except.pure]
      · simp only [hsp2, if_false]
        cases parse_singleline_row pr.1 columns with
        | error e => simp [Except.map, Bind.bind, Except.bind]
        | ok row => simp [Except.map, Bind.bind, Except.bind, Pure.pure, Except.pure]
  have key : ∀ (ps : List (PyStr × PyStr)) (acc : List Row),
      ps.foldlM buildStepS (acc, columns) =
        (ps.foldlM (buildStep columns) acc).map (fun rs => (rs, columns)) := by
    intro ps
    induction ps with
    | nil => intro acc; simp [List.foldlM_nil, Except.map, Pure.pure, Except.pure]
    | cons pr ps ih =>
      intro acc
      rw [List.foldlM_cons, List.foldlM_cons, step_eq acc pr]
      cases hx : buildStep columns acc pr with
      | error e => simp [Except.map, Bind.bind, Except.bind]
      | ok rs =>
        simp only [Except.map, Bind.bind, Except.bind]
        exact ih rs
  show (match (body_lines.zip (body_lines.drop 1 ++ [[]])).foldlM buildStepS
      ([], columns) with
    | .ok st => ((.ok ⟨st.1⟩ : Except PyError NetUseTable), st.2)
    | .error e => ((.error e : Except PyError NetUseTable), columns)) = _
  rw [key _ []]
  cases hx : (body_lines.zip (body_lines.drop 1 ++ [[]])).foldlM (buildStep columns) [] with
  | error e =>
    rw [List.drop_one] at hx
    simp [Except.map, build_net_use_table_from_parts, hx, Bind.bind, Except.bind]
  | ok rr =>
    rw [List.drop_one] at hx
    simp [Except.map, build_net_use_table_from_parts, hx, Bind.bind, Except.bind,
      Pure.pure, Except.pure]

end WinUnc
